import Mathlib

/-!
Verification of the result-set equivalence evaluator of the Text-To-SQL
repository (`evaluate/evaluate.py`): value normalization
(`normalize_value`), row and result-set normalization (`normalize`,
`normalize_results`), the set comparator with subset-tolerant fallback
(`is_similar`), and the accuracy accumulation loop driving a benchmark run.

Python floats and `Decimal` values are modelled as rationals; a query
executor result is `some data` when the returned dict carries a `data`
field and `none` when it reports an error.
-/

namespace TextToSQL

/-- The ASCII whitespace characters `str.strip()` removes: space, tab,
newline, carriage return, vertical tab, form feed. -/
def isSpace (c : Char) : Bool :=
  decide (c.toNat = 32 ∨ c.toNat = 9 ∨ c.toNat = 10 ∨ c.toNat = 13 ∨
          c.toNat = 11 ∨ c.toNat = 12)

/-- `v.strip()` on the underlying character list: drop whitespace from the
front, then from the back. -/
def stripChars (l : List Char) : List Char :=
  (l.dropWhile isSpace).rdropWhile isSpace

/-- Python `v.strip()`. -/
def pyStrip (s : String) : String :=
  ⟨stripChars s.data⟩

/-- Python `v.lower()` (ASCII letters, as in the benchmark data). -/
def pyLower (s : String) : String :=
  ⟨s.data.map Char.toLower⟩

/-- Round-half-to-even to the nearest integer, the rounding of Python's
builtin `round`. -/
def rhe (q : ℚ) : ℤ :=
  if q - ⌊q⌋ < 1/2 then ⌊q⌋
  else if (1:ℚ)/2 < q - ⌊q⌋ then ⌊q⌋ + 1
  else if ⌊q⌋ % 2 = 0 then ⌊q⌋ else ⌊q⌋ + 1

/-- `round(x, 5)`: round to 5 decimal digits. -/
def round5 (q : ℚ) : ℚ :=
  (rhe (q * 100000) : ℚ) / 100000

/-- `round(x, 3)`: round to 3 decimal digits. -/
def round3 (q : ℚ) : ℚ :=
  (rhe (q * 1000) : ℚ) / 1000

/-- A raw cell value as produced by the query executor: the Python dynamic
types `normalize_value` dispatches on.  Machine floats and
arbitrary-precision decimals are modelled as rationals; any other value
(including `None`) is a tag that normalization returns unchanged. -/
inductive RawValue where
  | str (s : String)
  | bool (b : Bool)
  | int (n : Int)
  | float (q : ℚ)
  | decimal (q : ℚ)
  | null
  | other (tag : Nat)
deriving DecidableEq

/-- The numeric branch of `normalize_value`: `round(float(v), 5)`.  The
recursive calls `normalize_value(1)` / `normalize_value(0)` of the source
terminate in this branch, so the str/bool cases below use it directly. -/
def normNum (q : ℚ) : RawValue :=
  RawValue.float (round5 q)

/-- `normalize_value(v)`: strings are stripped and lower-cased, boolean-like
tokens and booleans are normalized through the corresponding integer,
numbers are rounded floats, anything else is returned unchanged. -/
def normalize_value : RawValue → RawValue
  | .str s =>
      let v_lower := pyLower (pyStrip s)
      if v_lower ∈ (["true", "yes", "1"] : List String) then normNum 1
      else if v_lower ∈ (["false", "no", "0"] : List String) then normNum 0
      else .str v_lower
  | .bool b => normNum (if b then 1 else 0)
  | .int n => normNum (n : ℚ)
  | .float q => normNum q
  | .decimal q => normNum q
  | .null => .null
  | .other tag => .other tag

/-- `normalize(row)`: element-wise value normalization, column order and
count preserved. -/
def normalize (row : List RawValue) : List RawValue :=
  row.map normalize_value

/-- `normalize_results(results)`: normalize every row, then collapse
duplicate rows into a set. -/
def normalize_results (results : List (List RawValue)) : Finset (List RawValue) :=
  (results.map normalize).toFinset

/-- `set(row)`: the unordered set of the values of a row. -/
def valueSet (row : List RawValue) : Finset RawValue :=
  row.toFinset

/-- The match test the comparator applies to one predicted row:
`any(set(row_a).issubset(set(row_p)) for row_a in res_a) or
 any(set(row_p).issubset(set(row_a)) for row_a in res_a)`. -/
def rowMatches (res_a : Finset (List RawValue)) (row_p : List RawValue) : Bool :=
  decide (∃ row_a ∈ res_a, valueSet row_a ⊆ valueSet row_p) ||
  decide (∃ row_a ∈ res_a, valueSet row_p ⊆ valueSet row_a)

/-- The comparator's fallback loop: walk the distinct predicted rows
keeping a match count, bail out at the first unmatched row, and at the end
compare the count with the size of the reference set. -/
def simLoop (res_a : Finset (List RawValue)) :
    List (List RawValue) → Nat → Bool
  | [], count => decide (count = res_a.card)
  | row_p :: rest, count =>
      if rowMatches res_a row_p then simLoop res_a rest (count + 1) else false

/-- `is_similar(exec_a, exec_p)` on the `data` fields of the two execution
results.  The Python loop runs over the set `res_p`, i.e. over the list of
distinct normalized predicted rows. -/
def is_similar (exec_a exec_p : List (List RawValue)) : Bool :=
  let res_a := normalize_results exec_a
  let res_p := normalize_results exec_p
  if res_a = res_p then true
  else simLoop res_a ((exec_p.map normalize).dedup) 0

/-- One dataset record: the loop only reads its `SQL` field. -/
structure QueryRecord where
  SQL : String
deriving DecidableEq

/-- The Query Executor's outcome for one query: `some data` when the
returned dict has a `data` field, `none` when it only has `error`. -/
abbrev ExecResult := Option (List (List RawValue))

/-- One iteration of the evaluation loop: execute both queries, add one to
`correct` when both executions returned data and the comparator accepts,
and add one to `total` unconditionally. -/
def stepPair (exec : String → ExecResult) (st : Nat × Nat)
    (p a : QueryRecord) : Nat × Nat :=
  let exec_a := exec a.SQL
  let exec_p := exec p.SQL
  let correct :=
    match exec_p, exec_a with
    | some data_p, some data_a => if is_similar data_a data_p then st.1 + 1 else st.1
    | _, _ => st.1
  (correct, st.2 + 1)

/-- The evaluation loop over the already-zipped (predicted, actual) pairs. -/
def runPairs (exec : String → ExecResult) :
    List (QueryRecord × QueryRecord) → Nat × Nat → Nat × Nat
  | [], st => st
  | (p, a) :: rest, st => runPairs exec rest (stepPair exec st p a)

/-- The whole batch: fold the loop over `zip(predicts, actuals)` starting
from `correct = 0`, `total = 0`; the result is `(correct, total)`. -/
def runEval (exec : String → ExecResult)
    (predicts actuals : List QueryRecord) : Nat × Nat :=
  runPairs exec (predicts.zip actuals) (0, 0)

/-- The final summary value `round(correct/total, 3)`; `none` models the
`ZeroDivisionError` the final print raises when `total = 0`. -/
def finalReport (exec : String → ExecResult)
    (predicts actuals : List QueryRecord) : Option ℚ :=
  if (runEval exec predicts actuals).2 = 0 then none
  else some (round3 (((runEval exec predicts actuals).1 : ℚ) /
    ((runEval exec predicts actuals).2 : ℚ)))

/-- An executor that fails every query (returns an error dict). -/
def execFail : String → ExecResult := fun _ => none

/-- A concrete predicted-side record for witnesses. -/
def recP : QueryRecord := ⟨"p"⟩

/-- A concrete reference-side record for witnesses. -/
def recA : QueryRecord := ⟨"a"⟩

theorem toNat_ofNat_valid (n : Nat) (h : n.isValidChar) : (Char.ofNat n).toNat = n := by
  unfold Char.ofNat
  rw [dif_pos h]
  rfl

theorem toNat_toLower (c : Char) :
    c.toLower.toNat = if 65 ≤ c.toNat ∧ c.toNat ≤ 90 then c.toNat + 32 else c.toNat := by
  unfold Char.toLower
  split
  · next h =>
    rw [if_pos (by omega)]
    exact toNat_ofNat_valid _ (Or.inl (by omega))
  · next h =>
    rw [if_neg (by omega)]

theorem toLower_idem (c : Char) : c.toLower.toLower = c.toLower := by
  have h := toNat_toLower c
  show (if 65 ≤ c.toLower.toNat ∧ c.toLower.toNat ≤ 90 then
          Char.ofNat (c.toLower.toNat + 32) else c.toLower) = c.toLower
  rw [if_neg]
  rw [h]
  split <;> omega

theorem isSpace_toLower (c : Char) : isSpace c.toLower = isSpace c := by
  unfold isSpace
  rw [toNat_toLower]
  split
  · next h => exact decide_eq_decide.mpr (by omega)
  · rfl

theorem dropWhile_head_false {α : Type} {p : α → Bool} {l : List α} {b : α} {B : List α}
    (h : l.dropWhile p = b :: B) : p b = false := by
  have h0 := List.head?_dropWhile_not p l
  rw [h] at h0
  simpa using h0

theorem stripChars_idem (l : List Char) : stripChars (stripChars l) = stripChars l := by
  unfold stripChars
  have hdw : ((l.dropWhile isSpace).rdropWhile isSpace).dropWhile isSpace
      = (l.dropWhile isSpace).rdropWhile isSpace := by
    cases hB : (l.dropWhile isSpace).rdropWhile isSpace with
    | nil => simp
    | cons b B =>
      have hpre := List.rdropWhile_prefix isSpace (l.dropWhile isSpace)
      rw [hB] at hpre
      obtain ⟨t, ht⟩ := hpre
      have hAb : l.dropWhile isSpace = b :: (B ++ t) := by simpa using ht.symm
      rw [List.dropWhile_cons_of_neg]
      simp [dropWhile_head_false hAb]
  rw [hdw, List.rdropWhile_idempotent]

theorem stripChars_map_toLower (l : List Char) :
    stripChars (l.map Char.toLower) = (stripChars l).map Char.toLower := by
  have hpf : (fun c => isSpace (Char.toLower c)) = isSpace := by
    funext c; exact isSpace_toLower c
  unfold stripChars List.rdropWhile
  rw [List.dropWhile_map]
  simp only [Function.comp_def, hpf]
  rw [← List.map_reverse, List.dropWhile_map]
  simp only [Function.comp_def, hpf]
  rw [← List.map_reverse]

theorem map_toLower_idem (l : List Char) :
    (l.map Char.toLower).map Char.toLower = l.map Char.toLower := by
  rw [List.map_map]
  exact List.map_congr_left (fun c _ => toLower_idem c)

theorem pyLower_pyStrip_idem (s : String) :
    pyLower (pyStrip (pyLower (pyStrip s))) = pyLower (pyStrip s) := by
  unfold pyLower pyStrip
  simp only []
  congr 1
  show ((stripChars ((stripChars s.data).map Char.toLower))).map Char.toLower
      = (stripChars s.data).map Char.toLower
  rw [stripChars_map_toLower, stripChars_idem, map_toLower_idem]

theorem rhe_intCast (z : ℤ) : rhe (z : ℚ) = z := by
  unfold rhe
  rw [Int.floor_intCast]
  rw [if_pos]
  rw [sub_self]
  norm_num

theorem round5_idem (q : ℚ) : round5 (round5 q) = round5 q := by
  unfold round5
  rw [div_mul_cancel₀ _ (by norm_num : (100000:ℚ) ≠ 0)]
  rw [rhe_intCast]

theorem round5_intCast (n : ℤ) : round5 ((n : ℚ)) = (n : ℚ) := by
  unfold round5
  have hc : ((n : ℚ) * 100000) = ((n * 100000 : ℤ) : ℚ) := by push_cast; ring
  rw [hc, rhe_intCast]
  push_cast
  rw [mul_div_cancel_right₀ _ (by norm_num : (100000:ℚ) ≠ 0)]

theorem normalize_value_idem (v : RawValue) :
    normalize_value (normalize_value v) = normalize_value v := by
  have hnum : ∀ q : ℚ, normalize_value (normNum q) = normNum q := by
    intro q
    show normNum (round5 q) = normNum q
    unfold normNum
    rw [round5_idem]
  cases v with
  | str s =>
    show normalize_value
        (if pyLower (pyStrip s) ∈ (["true", "yes", "1"] : List String) then normNum 1
         else if pyLower (pyStrip s) ∈ (["false", "no", "0"] : List String) then normNum 0
         else .str (pyLower (pyStrip s)))
        = (if pyLower (pyStrip s) ∈ (["true", "yes", "1"] : List String) then normNum 1
           else if pyLower (pyStrip s) ∈ (["false", "no", "0"] : List String) then normNum 0
           else .str (pyLower (pyStrip s)))
    by_cases h1 : pyLower (pyStrip s) ∈ (["true", "yes", "1"] : List String)
    · rw [if_pos h1]; exact hnum 1
    · rw [if_neg h1]
      by_cases h2 : pyLower (pyStrip s) ∈ (["false", "no", "0"] : List String)
      · rw [if_pos h2]; exact hnum 0
      · rw [if_neg h2]
        show (if pyLower (pyStrip (pyLower (pyStrip s))) ∈ (["true", "yes", "1"] : List String)
              then normNum 1
              else if pyLower (pyStrip (pyLower (pyStrip s))) ∈ (["false", "no", "0"] : List String)
              then normNum 0
              else .str (pyLower (pyStrip (pyLower (pyStrip s))))) = _
        rw [pyLower_pyStrip_idem]
        rw [if_neg h1, if_neg h2]
  | bool b => exact hnum _
  | int n => exact hnum _
  | float q => exact hnum q
  | decimal q => exact hnum q
  | null => rfl
  | other tag => rfl

theorem normalize_idem_row (row : List RawValue) :
    normalize (normalize row) = normalize row := by
  unfold normalize
  rw [List.map_map]
  exact List.map_congr_left (fun v _ => normalize_value_idem v)

theorem simLoop_eq_true_iff (res_a : Finset (List RawValue))
    (l : List (List RawValue)) (c : Nat) :
    simLoop res_a l c = true ↔
      (∀ p ∈ l, rowMatches res_a p = true) ∧ c + l.length = res_a.card := by
  induction l generalizing c with
  | nil => simp [simLoop]
  | cons p rest ih =>
    by_cases h : rowMatches res_a p = true
    · rw [simLoop, if_pos h, ih]
      simp only [List.mem_cons, List.length_cons]
      constructor
      · rintro ⟨hall, hc⟩
        refine ⟨?_, by omega⟩
        rintro q (rfl | hq)
        · exact h
        · exact hall q hq
      · rintro ⟨hall, hc⟩
        exact ⟨fun q hq => hall q (Or.inr hq), by omega⟩
    · rw [simLoop, if_neg h]
      simp only [Bool.false_eq_true, false_iff, not_and]
      intro hall
      exact absurd (hall p (List.mem_cons_self p rest)) h

theorem mem_dedup_map_iff (exec_p : List (List RawValue)) (p : List RawValue) :
    p ∈ (exec_p.map normalize).dedup ↔ p ∈ normalize_results exec_p := by
  rw [List.mem_dedup, normalize_results, List.mem_toFinset]

theorem length_dedup_map (exec_p : List (List RawValue)) :
    (exec_p.map normalize).dedup.length = (normalize_results exec_p).card := by
  rw [normalize_results, List.card_toFinset]

theorem rowMatches_eq_true_iff (res_a : Finset (List RawValue)) (row_p : List RawValue) :
    rowMatches res_a row_p = true ↔
      (∃ row_a ∈ res_a, valueSet row_a ⊆ valueSet row_p) ∨
      (∃ row_a ∈ res_a, valueSet row_p ⊆ valueSet row_a) := by
  simp [rowMatches]

theorem is_similar_eq_sets (exec_a exec_p : List (List RawValue))
    (h : normalize_results exec_a = normalize_results exec_p) :
    is_similar exec_a exec_p = true := by
  unfold is_similar
  simp only []
  rw [if_pos h]

theorem runPairs_snd (exec : String → ExecResult)
    (l : List (QueryRecord × QueryRecord)) (st : Nat × Nat) :
    (runPairs exec l st).2 = st.2 + l.length := by
  induction l generalizing st with
  | nil => simp [runPairs]
  | cons pa rest ih =>
    obtain ⟨p, a⟩ := pa
    rw [runPairs, ih]
    simp [stepPair]
    omega

theorem runPairs_fst_all_fail (exec : String → ExecResult)
    (l : List (QueryRecord × QueryRecord)) (st : Nat × Nat)
    (h : ∀ pa ∈ l, exec pa.1.SQL = none ∨ exec pa.2.SQL = none) :
    (runPairs exec l st).1 = st.1 := by
  induction l generalizing st with
  | nil => rfl
  | cons pa rest ih =>
    obtain ⟨p, a⟩ := pa
    rw [runPairs]
    rw [ih _ (fun q hq => h q (List.mem_cons_of_mem _ hq))]
    have hpa := h (p, a) (List.mem_cons_self _ _)
    rcases hpa with hp | ha
    · simp only [stepPair, hp]
    · simp only [stepPair, ha]
      cases exec p.SQL <;> rfl

/-- Claim C3: if the two normalized result sets are equal as sets (same
membership), `is_similar` returns true immediately, before any
subset-tolerant fallback logic runs. -/
theorem is_similar_exact_match (exec_a exec_p : List (List RawValue))
    (h : normalize_results exec_a = normalize_results exec_p) :
    is_similar exec_a exec_p = true :=
  is_similar_eq_sets exec_a exec_p h

/-- Claim C3 witness: `[(1, "Alice")]` and `[(1, "ALICE")]` normalize to the
same set, so they are judged equivalent. -/
theorem is_similar_exact_match_witness :
    normalize_results [[RawValue.int 1, RawValue.str "Alice"]]
      = normalize_results [[RawValue.int 1, RawValue.str "ALICE"]] ∧
    is_similar [[RawValue.int 1, RawValue.str "Alice"]]
      [[RawValue.int 1, RawValue.str "ALICE"]] = true :=
  ⟨by with_unfolding_all decide,
   is_similar_exact_match [[RawValue.int 1, RawValue.str "Alice"]]
     [[RawValue.int 1, RawValue.str "ALICE"]] (by with_unfolding_all decide)⟩

/-- Claim C1: when the two normalized sets differ, `is_similar` is true
exactly when every distinct predicted row value-set-matches some reference
row (otherwise it returns false at the first unmatched row) and the number
of matched predicted rows — the number of distinct predicted rows — equals
the size of `actual`, not of `predicted`.  In particular
`actual = [(1,)]` against `predicted = [(1, 2)]` is accepted, while two
distinct reference rows against three individually matching predicted rows
are rejected. -/
theorem is_similar_fallback (exec_a exec_p : List (List RawValue))
    (h : normalize_results exec_a ≠ normalize_results exec_p) :
    (is_similar exec_a exec_p = true ↔
      (∀ row_p ∈ normalize_results exec_p,
        (∃ row_a ∈ normalize_results exec_a, valueSet row_a ⊆ valueSet row_p) ∨
        (∃ row_a ∈ normalize_results exec_a, valueSet row_p ⊆ valueSet row_a)) ∧
      (normalize_results exec_p).card = (normalize_results exec_a).card) ∧
    is_similar [[RawValue.int 1]] [[RawValue.int 1, RawValue.int 2]] = true ∧
    is_similar [[RawValue.int 1], [RawValue.int 2]]
      [[RawValue.int 1], [RawValue.int 2], [RawValue.int 1, RawValue.int 2]] = false := by
  refine ⟨?_, by with_unfolding_all decide, by with_unfolding_all decide⟩
  unfold is_similar
  simp only []
  rw [if_neg h, simLoop_eq_true_iff]
  constructor
  · rintro ⟨hall, hlen⟩
    constructor
    · intro row_p hp
      have hm := hall row_p ((mem_dedup_map_iff exec_p row_p).mpr hp)
      exact (rowMatches_eq_true_iff _ _).mp hm
    · rw [← length_dedup_map exec_p]
      omega
  · rintro ⟨hall, hcard⟩
    constructor
    · intro row_p hp
      exact (rowMatches_eq_true_iff _ _).mpr
        (hall row_p ((mem_dedup_map_iff exec_p row_p).mp hp))
    · rw [length_dedup_map exec_p]
      omega

/-- Claim C1 witness: the fallback characterization instantiated at
`actual = [(1,)]`, `predicted = [(1, 2)]`, whose normalized sets differ. -/
theorem is_similar_fallback_witness :
    normalize_results [[RawValue.int 1]] ≠ normalize_results [[RawValue.int 1, RawValue.int 2]] ∧
    ((is_similar [[RawValue.int 1]] [[RawValue.int 1, RawValue.int 2]] = true ↔
      (∀ row_p ∈ normalize_results [[RawValue.int 1, RawValue.int 2]],
        (∃ row_a ∈ normalize_results [[RawValue.int 1]], valueSet row_a ⊆ valueSet row_p) ∨
        (∃ row_a ∈ normalize_results [[RawValue.int 1]], valueSet row_p ⊆ valueSet row_a)) ∧
      (normalize_results [[RawValue.int 1, RawValue.int 2]]).card
        = (normalize_results [[RawValue.int 1]]).card) ∧
    is_similar [[RawValue.int 1]] [[RawValue.int 1, RawValue.int 2]] = true ∧
    is_similar [[RawValue.int 1], [RawValue.int 2]]
      [[RawValue.int 1], [RawValue.int 2], [RawValue.int 1, RawValue.int 2]] = false) :=
  ⟨by with_unfolding_all decide,
   is_similar_fallback [[RawValue.int 1]] [[RawValue.int 1, RawValue.int 2]]
     (by with_unfolding_all decide)⟩

/-- Claim C9: when at least one of the two normalized result sets is empty,
`is_similar` returns true exactly when both are empty: empty against
non-empty fails, empty against empty passes at the exact-match step. -/
theorem is_similar_empty_iff (exec_a exec_p : List (List RawValue))
    (h : normalize_results exec_a = ∅ ∨ normalize_results exec_p = ∅) :
    (is_similar exec_a exec_p = true ↔
      normalize_results exec_a = ∅ ∧ normalize_results exec_p = ∅) := by
  by_cases heq : normalize_results exec_a = normalize_results exec_p
  · rw [is_similar_eq_sets exec_a exec_p heq]
    simp only [true_iff]
    rcases h with h | h
    · exact ⟨h, heq ▸ h⟩
    · exact ⟨heq ▸ h, h⟩
  · unfold is_similar
    simp only []
    rw [if_neg heq, simLoop_eq_true_iff]
    constructor
    · rintro ⟨hall, hlen⟩
      exfalso
      rcases h with h | h
      · have hcardp : (normalize_results exec_p).card = 0 := by
          rw [← length_dedup_map exec_p]
          rw [h] at hlen
          simpa using hlen
        exact heq (by rw [h, Finset.card_eq_zero.mp hcardp])
      · have hlenp : ((exec_p.map normalize).dedup).length = 0 := by
          rw [length_dedup_map exec_p, h]
          rfl
        rw [hlenp] at hlen
        exact heq (by rw [Finset.card_eq_zero.mp (by omega : (normalize_results exec_a).card = 0), h])
    · rintro ⟨ha, hp⟩
      exact absurd (ha.trans hp.symm) heq

/-- Claim C9 witness: an empty reference result against the non-empty
predicted result `[(1,)]` is rejected. -/
theorem is_similar_empty_iff_witness :
    (normalize_results ([] : List (List RawValue)) = ∅ ∨
      normalize_results [[RawValue.int 1]] = ∅) ∧
    (is_similar [] [[RawValue.int 1]] = true ↔
      normalize_results ([] : List (List RawValue)) = ∅ ∧
      normalize_results [[RawValue.int 1]] = ∅) :=
  ⟨Or.inl (by with_unfolding_all decide),
   is_similar_empty_iff [] [[RawValue.int 1]] (Or.inl (by with_unfolding_all decide))⟩

/-- Claim C4: text is stripped and lower-cased; the tokens true/yes/1 and
false/no/0 normalize through the integers 1 and 0, any other text stays as
the stripped lower-cased string; booleans normalize through their integer
representation; and `normalize("TRUE")`, `normalize("Yes")`,
`normalize(1)`, `normalize(True)` are all the float 1.0. -/
theorem normalize_value_tokens :
    (∀ s : String,
      normalize_value (RawValue.str s) =
        (if pyLower (pyStrip s) ∈ (["true", "yes", "1"] : List String) then
          normalize_value (RawValue.int 1)
         else if pyLower (pyStrip s) ∈ (["false", "no", "0"] : List String) then
          normalize_value (RawValue.int 0)
         else RawValue.str (pyLower (pyStrip s)))) ∧
    (∀ b : Bool,
      normalize_value (RawValue.bool b) =
        normalize_value (RawValue.int (if b then 1 else 0))) ∧
    (normalize_value (RawValue.str "TRUE") = RawValue.float 1 ∧
     normalize_value (RawValue.str "Yes") = RawValue.float 1 ∧
     normalize_value (RawValue.int 1) = RawValue.float 1 ∧
     normalize_value (RawValue.bool true) = RawValue.float 1) := by
  refine ⟨?_, ?_, by with_unfolding_all decide, by with_unfolding_all decide,
    by with_unfolding_all decide, by with_unfolding_all decide⟩
  · intro s
    show (if pyLower (pyStrip s) ∈ (["true", "yes", "1"] : List String) then normNum 1
          else if pyLower (pyStrip s) ∈ (["false", "no", "0"] : List String) then normNum 0
          else RawValue.str (pyLower (pyStrip s))) = _
    have h1 : normalize_value (RawValue.int 1) = normNum 1 := by
      show normNum ((1 : ℤ) : ℚ) = normNum 1
      norm_num
    have h0 : normalize_value (RawValue.int 0) = normNum 0 := by
      show normNum ((0 : ℤ) : ℚ) = normNum 0
      norm_num
    rw [h1, h0]
  · intro b
    cases b <;> with_unfolding_all decide

/-- Claim C5: every numeric raw value — integer, float or decimal — becomes
its floating value rounded to 5 decimal digits (integers are fixed points
of that rounding), so `1.000001` collapses to `1.0` while `1.00001` stays
distinct from it. -/
theorem normalize_value_numeric :
    (∀ n : ℤ, normalize_value (RawValue.int n) = RawValue.float (round5 (n : ℚ)) ∧
      round5 ((n : ℚ)) = (n : ℚ)) ∧
    (∀ q : ℚ, normalize_value (RawValue.float q) = RawValue.float (round5 q)) ∧
    (∀ q : ℚ, normalize_value (RawValue.decimal q) = RawValue.float (round5 q)) ∧
    normalize_value (RawValue.float (1000001/1000000)) = normalize_value (RawValue.float 1) ∧
    normalize_value (RawValue.float (100001/100000)) ≠ normalize_value (RawValue.float 1) := by
  refine ⟨fun n => ⟨rfl, round5_intCast n⟩, fun q => rfl, fun q => rfl,
    by with_unfolding_all decide, by with_unfolding_all decide⟩

/-- Claim C6: normalization is idempotent on every raw value, and
normalizing a result set that is already normalized (any list enumerating
a normalized set) reproduces the same set of normalized rows. -/
theorem normalize_value_idempotent :
    (∀ v : RawValue, normalize_value (normalize_value v) = normalize_value v) ∧
    (∀ results : List (List RawValue), ∀ l : List (List RawValue),
      l.toFinset = normalize_results results → normalize_results l = normalize_results results) := by
  refine ⟨normalize_value_idem, ?_⟩
  intro results l hl
  have hfix : ∀ r ∈ l, normalize r = r := by
    intro r hr
    have : r ∈ normalize_results results := by
      rw [← hl]
      exact List.mem_toFinset.mpr hr
    rw [normalize_results, List.mem_toFinset, List.mem_map] at this
    obtain ⟨row, _, hrow⟩ := this
    rw [← hrow, normalize_idem_row]
  rw [normalize_results, ← hl]
  congr 1
  calc l.map normalize = l.map id := List.map_congr_left (fun r hr => hfix r hr)
  _ = l := List.map_id l

/-- Claim C7: result-set normalization maps each row element-wise with the
value normalizer, preserving column position and count, and deduplicates
the normalized rows into a set; `[(1, "A"), (1, "a")]` collapses to a
one-element set. -/
theorem normalize_results_spec :
    (∀ row : List RawValue, (normalize row).length = row.length) ∧
    (∀ row : List RawValue, ∀ i : Nat, (normalize row)[i]? = (row[i]?).map normalize_value) ∧
    (∀ results : List (List RawValue), ∀ r : List RawValue,
      r ∈ normalize_results results ↔ ∃ row ∈ results, normalize row = r) ∧
    (normalize_results [[RawValue.int 1, RawValue.str "A"],
       [RawValue.int 1, RawValue.str "a"]]).card = 1 := by
  refine ⟨fun row => List.length_map row normalize_value, ?_, ?_,
    by with_unfolding_all decide⟩
  · intro row i
    exact List.getElem?_map normalize_value row i
  · intro results r
    rw [normalize_results, List.mem_toFinset, List.mem_map]

/-- Claim C2: per evaluated pair the `total` counter goes up by exactly
one whatever the outcome; `correct` goes up by one exactly when both
executions returned a `data` field and the comparator accepts, is
unchanged otherwise (in particular when either execution errored), and
the loop continues with the next pair — no exception path exists. -/
theorem stepPair_accounting (exec : String → ExecResult) (st : Nat × Nat)
    (p a : QueryRecord) :
    (stepPair exec st p a).2 = st.2 + 1 ∧
    ((stepPair exec st p a).1 = st.1 + 1 ↔
      ∃ data_p data_a, exec p.SQL = some data_p ∧ exec a.SQL = some data_a ∧
        is_similar data_a data_p = true) ∧
    ((stepPair exec st p a).1 = st.1 ∨ (stepPair exec st p a).1 = st.1 + 1) ∧
    ((exec p.SQL = none ∨ exec a.SQL = none) → (stepPair exec st p a).1 = st.1) ∧
    (∀ rest, runPairs exec ((p, a) :: rest) st = runPairs exec rest (stepPair exec st p a)) := by
  refine ⟨rfl, ?_, ?_, ?_, fun rest => rfl⟩
  · cases hp : exec p.SQL with
    | none =>
      simp only [stepPair, hp]
      constructor
      · intro hco; omega
      · rintro ⟨dp, da, hdp, _⟩; cases hdp
    | some dp =>
      cases ha : exec a.SQL with
      | none =>
        simp only [stepPair, hp, ha]
        constructor
        · intro hco; omega
        · rintro ⟨dp', da', _, hda, _⟩; cases hda
      | some da =>
        by_cases hs : is_similar da dp = true
        · simp only [stepPair, hp, ha, if_pos hs]
          exact ⟨fun _ => ⟨dp, da, rfl, rfl, hs⟩, fun _ => by trivial⟩
        · simp only [stepPair, hp, ha, if_neg hs]
          constructor
          · intro hco; omega
          · rintro ⟨dp', da', hdp, hda, hsim⟩
            cases hdp; cases hda
            exact absurd hsim hs
  · cases hp : exec p.SQL with
    | none => left; simp only [stepPair, hp]
    | some dp =>
      cases ha : exec a.SQL with
      | none => left; simp only [stepPair, hp, ha]
      | some da =>
        by_cases hs : is_similar da dp = true
        · right; simp only [stepPair, hp, ha, if_pos hs]
        · left; simp only [stepPair, hp, ha, if_neg hs]
  · rintro (hp | ha)
    · simp only [stepPair, hp]
    · simp only [stepPair, ha]
      cases exec p.SQL <;> rfl

/-- Claim C10: the loop runs over `zip(predicts, actuals)`, so only the
first `min` of the two lengths index-aligned pairs are evaluated — the run
is unchanged if both inputs are truncated to that length, and the final
`total` equals the shorter length; no error is raised on a mismatch. -/
theorem runEval_truncates (exec : String → ExecResult)
    (predicts actuals : List QueryRecord) :
    (runEval exec predicts actuals).2 = min predicts.length actuals.length ∧
    runEval exec predicts actuals =
      runEval exec (predicts.take (min predicts.length actuals.length))
        (actuals.take (min predicts.length actuals.length)) := by
  constructor
  · rw [runEval, runPairs_snd, List.length_zip]
    omega
  · unfold runEval
    congr 1
    have hz : (predicts.take (min predicts.length actuals.length)).zip
        (actuals.take (min predicts.length actuals.length))
        = (predicts.zip actuals).take (min predicts.length actuals.length) := by
      unfold List.zip
      rw [List.take_zipWith]
    rw [hz, List.take_of_length_le]
    rw [List.length_zip]

/-- Claim C8 counterexample: on the empty dataset the final summary line
divides `correct` by `total = 0`, so no accuracy figure is produced (the
Python print raises `ZeroDivisionError`), refuting the claim for every
dataset. -/
theorem finalReport_empty_dataset :
    finalReport execFail [] [] = none := rfl

/-- Claim C8 (amended to datasets with at least one evaluated pair): the
batch terminates with `total` positive, always reports the accuracy
`round(correct/total, 3)`, and when every pair fails on either side the
report is the degenerate accuracy 0. -/
theorem finalReport_nonempty (exec : String → ExecResult)
    (predicts actuals : List QueryRecord)
    (h : predicts.zip actuals ≠ []) :
    (runEval exec predicts actuals).2 ≠ 0 ∧
    finalReport exec predicts actuals =
      some (round3 (((runEval exec predicts actuals).1 : ℚ) /
        ((runEval exec predicts actuals).2 : ℚ))) ∧
    ((∀ pa ∈ predicts.zip actuals, exec pa.1.SQL = none ∨ exec pa.2.SQL = none) →
      finalReport exec predicts actuals = some 0) := by
  have ht : (runEval exec predicts actuals).2 ≠ 0 := by
    rw [runEval, runPairs_snd]
    have hlz : predicts.zip actuals ≠ [] → (predicts.zip actuals).length ≠ 0 := by
      intro hne hlen
      exact hne (List.length_eq_zero.mp hlen)
    have := hlz h
    omega
  have hr3 : round3 0 = 0 := by with_unfolding_all decide
  refine ⟨ht, ?_, ?_⟩
  · rw [finalReport, if_neg ht]
  · intro hfail
    have hc : (runEval exec predicts actuals).1 = 0 :=
      runPairs_fst_all_fail exec (predicts.zip actuals) (0, 0) hfail
    rw [finalReport, if_neg ht, hc]
    rw [Nat.cast_zero, zero_div, hr3]

/-- Claim C8 witness: one pair whose two executions both fail still yields
a complete batch with reported accuracy 0. -/
theorem finalReport_nonempty_witness :
    [recP].zip [recA] ≠ [] ∧
    ((runEval execFail [recP] [recA]).2 ≠ 0 ∧
    finalReport execFail [recP] [recA] =
      some (round3 (((runEval execFail [recP] [recA]).1 : ℚ) /
        ((runEval execFail [recP] [recA]).2 : ℚ))) ∧
    ((∀ pa ∈ [recP].zip [recA],
        execFail pa.1.SQL = none ∨ execFail pa.2.SQL = none) →
      finalReport execFail [recP] [recA] = some 0)) :=
  ⟨by simp [List.zip], finalReport_nonempty execFail [recP] [recA] (by simp [List.zip])⟩

end TextToSQL
